import Mathlib

/-!
Verification of the braid parallel-download library (braid.go).

Shallow embedding: Go `int`/`int64` values are modelled as `Int`
(Go's truncating division `/` is `Int.tdiv`, Go's `%` is `Int.tmod`);
loop indices are `Nat`.  Each definition mirrors a specific piece of
the Go source, cited by function name and line.
-/

namespace Braid

/-- `type Stat struct { TotalBytes int64; ReadBytes int64 }` (braid.go, lines 57-60). -/
structure Stat where
  TotalBytes : Int
  ReadBytes : Int
deriving DecidableEq, Repr

/-- `FetchFile` lines 129-131: `if r.jobs <= 0 { r.jobs = 1 }`.
The job count actually used after the clamp. -/
def effectiveJobs (jobs : Int) : Int :=
  if jobs ≤ 0 then 1 else jobs

/-- `FetchFile` line 132: `chunkSize := length / r.jobs` (Go `/` truncates). -/
def chunkSize (length jobs : Int) : Int :=
  Int.tdiv length (effectiveJobs jobs)

/-- `FetchFile` line 133: `chunkSizeLast := length % r.jobs`. -/
def chunkSizeLast (length jobs : Int) : Int :=
  Int.tmod length (effectiveJobs jobs)

/-- `FetchFile` line 144: `min := chunkSize * i` for worker `i`. -/
def planMin (length jobs : Int) (i : Nat) : Int :=
  chunkSize length jobs * (i : Int)

/-- `FetchFile` lines 145-149: `max := chunkSize * (i + 1)`, and
`if i == r.jobs-1 { max += chunkSizeLast }`. -/
def planMax (length jobs : Int) (i : Nat) : Int :=
  chunkSize length jobs * ((i : Int) + 1) +
    (if i = (effectiveJobs jobs).toNat - 1 then chunkSizeLast length jobs else 0)

/-- The list of half-open ranges `(min, max)` produced by the loop
`for i := 0; i < r.jobs; i++` in `FetchFile` (lines 142-154). -/
def planRanges (length jobs : Int) : List (Int × Int) :=
  (List.range (effectiveJobs jobs).toNat).map
    (fun i => (planMin length jobs i, planMax length jobs i))

lemma effectiveJobs_pos (jobs : Int) : 1 ≤ effectiveJobs jobs := by
  unfold effectiveJobs
  split <;> omega

lemma effectiveJobs_of_pos {jobs : Int} (h : 1 ≤ jobs) : effectiveJobs jobs = jobs := by
  unfold effectiveJobs
  split <;> omega

lemma effectiveJobs_toNat_pos (jobs : Int) : 1 ≤ (effectiveJobs jobs).toNat := by
  have h := effectiveJobs_pos jobs
  omega

lemma chunkSize_nonneg {length : Int} (jobs : Int) (hL : 0 ≤ length) :
    0 ≤ chunkSize length jobs := by
  have h := effectiveJobs_pos jobs
  exact Int.tdiv_nonneg hL (by omega)

lemma chunkSizeLast_nonneg {length : Int} (jobs : Int) (hL : 0 ≤ length) :
    0 ≤ chunkSizeLast length jobs := by
  exact Int.tmod_nonneg _ hL

/-- The division identity tying the plan's pieces back to the content length:
`effectiveJobs * chunkSize + chunkSizeLast = length`. -/
lemma chunkSize_identity (length jobs : Int) :
    effectiveJobs jobs * chunkSize length jobs + chunkSizeLast length jobs = length := by
  unfold chunkSize chunkSizeLast
  exact Int.tdiv_add_tmod length (effectiveJobs jobs)

lemma planMin_zero (length jobs : Int) : planMin length jobs 0 = 0 := by
  simp [planMin]

/-- The last worker's `max` equals the content length. -/
lemma planMax_last (length jobs : Int) :
    planMax length jobs ((effectiveJobs jobs).toNat - 1) = length := by
  have hn := effectiveJobs_toNat_pos jobs
  have hE : ((effectiveJobs jobs).toNat : Int) = effectiveJobs jobs := by
    have := effectiveJobs_pos jobs
    omega
  unfold planMax
  rw [if_pos rfl]
  have hcast : (((effectiveJobs jobs).toNat - 1 : Nat) : Int)
      = ((effectiveJobs jobs).toNat : Int) - 1 := by omega
  rw [hcast, hE]
  have hid := chunkSize_identity length jobs
  ring_nf
  ring_nf at hid
  linarith [hid]

/-- Contiguity: each non-last worker's `max` is the next worker's `min`. -/
lemma planMax_eq_planMin_succ {length jobs : Int} {k : Nat}
    (hk : k + 1 < (effectiveJobs jobs).toNat) :
    planMax length jobs k = planMin length jobs (k + 1) := by
  unfold planMax planMin
  rw [if_neg (by omega)]
  push_cast
  ring

/-- Each planned range has non-negative extent. -/
lemma planMin_le_planMax {length jobs : Int} (hL : 0 ≤ length) (k : Nat) :
    planMin length jobs k ≤ planMax length jobs k := by
  have hcs := chunkSize_nonneg jobs hL
  have hrem := chunkSizeLast_nonneg jobs hL
  unfold planMin planMax
  have h1 : chunkSize length jobs * (k : Int) ≤ chunkSize length jobs * ((k : Int) + 1) := by
    nlinarith
  split <;> nlinarith

/-- Ordering/non-overlap: an earlier worker's `max` never exceeds a later
worker's `min`. -/
lemma planMax_le_planMin {length jobs : Int} (hL : 0 ≤ length) {k l : Nat}
    (hkl : k < l) (hl : l < (effectiveJobs jobs).toNat) :
    planMax length jobs k ≤ planMin length jobs l := by
  have hcs := chunkSize_nonneg jobs hL
  unfold planMax planMin
  rw [if_neg (by omega)]
  have hk1 : ((k : Int) + 1) ≤ (l : Int) := by exact_mod_cast hkl
  nlinarith

lemma planRanges_length (length jobs : Int) :
    (planRanges length jobs).length = (effectiveJobs jobs).toNat := by
  simp [planRanges]

lemma planRanges_get (length jobs : Int) (k : Nat)
    (hk : k < (planRanges length jobs).length) :
    (planRanges length jobs).get ⟨k, hk⟩ = (planMin length jobs k, planMax length jobs k) := by
  simp [planRanges, List.get_eq_getElem]

/-- Telescoping sum of consecutive differences. -/
lemma telescope_sum (f : Nat → Int) (n : Nat) :
    ((List.range n).map (fun i => f (i + 1) - f i)).sum = f n - f 0 := by
  induction n with
  | zero => simp
  | succ m ih =>
    rw [List.range_succ, List.map_append, List.sum_append, ih]
    simp

/-- The boundary function of the plan: `F i = planMin i` for `i < jobs`,
extended by `F jobs = length`.  Range `i` spans `[F i, F (i+1))`. -/
def planBound (length jobs : Int) (i : Nat) : Int :=
  if i < (effectiveJobs jobs).toNat then planMin length jobs i else length

lemma planBound_diff {length jobs : Int} {i : Nat}
    (hi : i < (effectiveJobs jobs).toNat) :
    planMax length jobs i - planMin length jobs i
      = planBound length jobs (i + 1) - planBound length jobs i := by
  unfold planBound
  rw [if_pos hi]
  by_cases h : i + 1 < (effectiveJobs jobs).toNat
  · rw [if_pos h, planMax_eq_planMin_succ h]
  · rw [if_neg h]
    have hlast : i = (effectiveJobs jobs).toNat - 1 := by omega
    rw [hlast, planMax_last]

/-- The planned range lengths sum to the content length. -/
lemma plan_lengths_sum (length jobs : Int) :
    ((List.range (effectiveJobs jobs).toNat).map
      (fun i => planMax length jobs i - planMin length jobs i)).sum = length := by
  have hmap : (List.range (effectiveJobs jobs).toNat).map
      (fun i => planMax length jobs i - planMin length jobs i)
      = (List.range (effectiveJobs jobs).toNat).map
        (fun i => planBound length jobs (i + 1) - planBound length jobs i) := by
    apply List.map_congr_left
    intro a ha
    rw [List.mem_range] at ha
    exact planBound_diff ha
  rw [hmap, telescope_sum]
  have hn := effectiveJobs_toNat_pos jobs
  unfold planBound
  rw [if_neg (by omega), if_pos (by omega), planMin_zero]
  ring

/-! ### The worker `fetchFile` (braid.go, lines 179-235)

A worker's interaction with the outside world is a trace of events: the
GET request may fail to build or to execute (lines 182-199), and then the
body loop (lines 204-234) sees, per iteration, the slice returned by
`reader.ReadBytes` (its length and error status) and the result of
`file.WriteAt` (the count and error). -/

/-- The error status of one `reader.ReadBytes('\n')` call: `ok` (nil error),
`eof` (`io.EOF`), or `other` (any other read error). -/
inductive ReadErr where
  | ok
  | eof
  | other
deriving DecidableEq, Repr

/-- One iteration of the body loop: `line` is `len(line)` from
`reader.ReadBytes`, `rerr` its error status, `wcount` the count returned by
`file.WriteAt`, and `werr` its error (`some msg` when non-nil). -/
structure ChunkEvent where
  line : Nat
  rerr : ReadErr
  wcount : Nat
  werr : Option String
deriving DecidableEq, Repr

/-- How a worker terminates: normal completion, early termination after
sending an error on `errChan`, or early termination sending nothing. -/
inductive WorkerOutcome where
  | success
  | sentError (msg : String)
  | silentStop
deriving DecidableEq, Repr

/-- The body loop of `fetchFile` (braid.go, lines 204-234), threaded with
the worker's `read` counter.  Mirrors the source exactly:
a non-EOF read error returns before the write (lines 211-212);
otherwise the write happens, `read += len(line)` and
`r.stats[jobID].ReadBytes = int64(read)` are published (lines 217-219),
then a non-nil write error is sent on `errChan` (lines 221-224),
then a short write only logs and returns (lines 226-229),
then EOF breaks the loop (lines 231-233). -/
def runLoopRead : List ChunkEvent → Nat → Nat × WorkerOutcome
  | [], read => (read, WorkerOutcome.success)
  | e :: es, read =>
    if e.rerr = ReadErr.other then (read, WorkerOutcome.silentStop)
    else
      match e.werr with
      | some msg => (read + e.line, WorkerOutcome.sentError msg)
      | none =>
        if e.wcount ≠ e.line then (read + e.line, WorkerOutcome.silentStop)
        else if e.rerr = ReadErr.eof then (read + e.line, WorkerOutcome.success)
        else runLoopRead es (read + e.line)

/-- The outcome of the body loop started with `read = 0`. -/
def runLoop (es : List ChunkEvent) : WorkerOutcome :=
  (runLoopRead es 0).2

/-- A worker's whole execution: `http.NewRequest` may fail (lines 182-186),
`client.Do` may fail (lines 195-199), otherwise the body loop runs. -/
inductive FetchEvent where
  | reqError (msg : String)
  | doError (msg : String)
  | body (events : List ChunkEvent)
deriving DecidableEq, Repr

/-- `fetchFile` (braid.go, lines 179-235) as a function of its event trace. -/
def runWorker : FetchEvent → WorkerOutcome
  | FetchEvent.reqError msg => WorkerOutcome.sentError msg
  | FetchEvent.doError msg => WorkerOutcome.sentError msg
  | FetchEvent.body es => runLoop es

/-- True when the outcome sent an error on `errChan`. -/
def reportsError : WorkerOutcome → Bool
  | WorkerOutcome.sentError _ => true
  | _ => false

/-- True when the worker terminated early (did not complete its range). -/
def isEarlyFailure : WorkerOutcome → Bool
  | WorkerOutcome.success => false
  | _ => true

/-- The successive values published into `r.stats[jobID].ReadBytes`
(line 219) along a run of the body loop: one per iteration that reaches
the write, each equal to the `read` counter after `read += len(line)`. -/
def publishedReads : List ChunkEvent → Nat → List Nat
  | [], _ => []
  | e :: es, read =>
    if e.rerr = ReadErr.other then []
    else
      (read + e.line) ::
        (match e.werr with
         | some _ => []
         | none =>
           if e.wcount ≠ e.line then []
           else if e.rerr = ReadErr.eof then []
           else publishedReads es (read + e.line))

/-- The positioned writes a worker issues (braid.go, line 217):
`file.WriteAt(line, int64(min+read))`, one `(offset, size)` pair per
chunk, with `read` advancing by `len(line)` each time. -/
def workerWrites (min : Int) : List Nat → Nat → List (Int × Nat)
  | [], _ => []
  | c :: cs, read => (min + (read : Int), c) :: workerWrites min cs (read + c)

/-- Line 219, `r.stats[jobID].ReadBytes = int64(v)`: update slot `jobID`
of the stats slice, leaving its `TotalBytes` and every other slot alone. -/
def setReadBytes : List Stat → Nat → Int → List Stat
  | [], _, _ => []
  | s :: rest, 0, v => ⟨s.TotalBytes, v⟩ :: rest
  | s :: rest, k + 1, v => s :: setReadBytes rest k v

/-! ### `Stats` (braid.go, lines 82-92) -/

/-- `Stats()`: starting from the zero `Stat`, add every slot's
`TotalBytes` and `ReadBytes` (braid.go, lines 83-88). -/
def statsSnapshot (stats : List Stat) : Stat :=
  stats.foldl (fun acc s => ⟨acc.TotalBytes + s.TotalBytes, acc.ReadBytes + s.ReadBytes⟩)
    ⟨0, 0⟩

/-! ### HEAD response handling (braid.go, lines 123-127) -/

/-- Go map/slice semantics of `headers["Content-Length"]`: the list of
values for the key, the empty list when the key is absent. -/
def headerValues (headers : List (String × List String)) (key : String) : List String :=
  match headers.find? (fun p => p.1 = key) with
  | some p => p.2
  | none => []

/-- `strconv.Atoi` digits: accumulate decimal digits, failing on any
non-digit character. -/
def digitsValAux : List Char → Nat → Option Nat
  | [], acc => some acc
  | c :: cs, acc =>
    if c.isDigit then digitsValAux cs (acc * 10 + (c.toNat - 48)) else none

/-- `strconv.Atoi` digit run: at least one digit, all digits. -/
def digitsVal : List Char → Option Nat
  | [] => none
  | l => digitsValAux l 0

/-- `strconv.Atoi` (sign handling plus a digit run; the 64-bit overflow
check is immaterial to the claims and is not modelled). -/
def goAtoi (s : String) : Option Int :=
  match s.data with
  | [] => none
  | c :: cs =>
    if c = '-' then (digitsVal cs).map (fun n => -(n : Int))
    else if c = '+' then (digitsVal cs).map (fun n => (n : Int))
    else (digitsVal (c :: cs)).map (fun n => (n : Int))

/-- The result of lines 123-127 of `FetchFile`: `crash` models the Go
runtime index-out-of-range crash raised by `headers["Content-Length"][0]`
when the header is absent (the nil slice has no element 0); `atoiError`
is the error return when `strconv.Atoi` fails; `ok` carries the parsed
length. -/
inductive HeadOutcome where
  | crash
  | atoiError
  | ok (length : Int)
deriving DecidableEq, Repr

/-- `length, err = strconv.Atoi(headers["Content-Length"][0])` followed by
the `err != nil` check (braid.go, lines 123-127). -/
def parseContentLength (headers : List (String × List String)) : HeadOutcome :=
  match (headerValues headers "Content-Length").head? with
  | none => HeadOutcome.crash
  | some s =>
    match goAtoi s with
    | none => HeadOutcome.atoiError
    | some n => HeadOutcome.ok n

/-! ### Error aggregation (braid.go, lines 156-176) -/

/-- The accumulator loop `errors += "\n" + err.Error()` (line 162),
applied to the errors in arrival order, starting from `""`. -/
def combineErrors (msgs : List String) : String :=
  msgs.foldl (fun acc m => acc ++ "\n" ++ m) ""

/-- Lines 172-176: return a non-nil error carrying the accumulated string
when it is non-empty, else a nil error. -/
def fetchResult (msgs : List String) : Option String :=
  if combineErrors msgs = "" then none else some (combineErrors msgs)

/-- Modelled from the spec: the spec's description of the combined
message, "concatenation of all reported error messages,
newline-separated, in arrival order". -/
def newlineSeparated : List String → String
  | [] => ""
  | [m] => m
  | m :: ms => m ++ "\n" ++ newlineSeparated ms

/-! ### The Range header (braid.go, line 188) -/

/-- `strconv.Itoa` (Go prints integers exactly as Lean's `toString`). -/
def goItoa (n : Int) : String := toString n

/-- `range_header := "bytes=" + strconv.Itoa(min) + "-" + strconv.Itoa(max-1)`
(braid.go, line 188). -/
def buildRangeHeader (min max : Int) : String :=
  "bytes=" ++ goItoa min ++ "-" ++ goItoa (max - 1)

/-! ### Helper lemmas -/

/-- Every positioned write of a worker stays within
`[min + read, min + read + sum of chunk lengths)`. -/
lemma workerWrites_bounds (min : Int) :
    ∀ (chunks : List Nat) (read : Nat),
      ∀ w ∈ workerWrites min chunks read,
        min + (read : Int) ≤ w.1 ∧ w.1 + (w.2 : Int) ≤ min + (read : Int) + (chunks.sum : Int) := by
  intro chunks
  induction chunks with
  | nil => intro read w hw; simp [workerWrites] at hw
  | cons c cs ih =>
    intro read w hw
    have h0 : (0 : Int) ≤ ((cs.sum : Nat) : Int) := Int.natCast_nonneg _
    simp only [workerWrites, List.mem_cons] at hw
    rcases hw with hw | hw
    · subst hw
      simp only [List.sum_cons]
      push_cast at h0 ⊢
      omega
    · have h := ih (read + c) w hw
      simp only [List.sum_cons]
      push_cast at h h0 ⊢
      omega

lemma statsSnapshot_aux (l : List Stat) :
    ∀ acc : Stat,
      l.foldl (fun acc s => ⟨acc.TotalBytes + s.TotalBytes, acc.ReadBytes + s.ReadBytes⟩) acc
        = ⟨acc.TotalBytes + (l.map Stat.TotalBytes).sum,
           acc.ReadBytes + (l.map Stat.ReadBytes).sum⟩ := by
  induction l with
  | nil => intro acc; simp
  | cons s rest ih =>
    intro acc
    simp only [List.foldl_cons, List.map_cons, List.sum_cons]
    rw [ih]
    simp only [Stat.mk.injEq]
    constructor <;> ring

/-- `Stats()` is the component-wise sum over all slots. -/
lemma statsSnapshot_eq_sums (l : List Stat) :
    statsSnapshot l = ⟨(l.map Stat.TotalBytes).sum, (l.map Stat.ReadBytes).sum⟩ := by
  unfold statsSnapshot
  rw [statsSnapshot_aux]
  simp

lemma combineErrors_aux (msgs : List String) :
    ∀ acc : String,
      msgs.foldl (fun acc m => acc ++ "\n" ++ m) acc = acc ++ combineErrors msgs := by
  induction msgs with
  | nil => intro acc; simp [combineErrors]
  | cons m ms ih =>
    intro acc
    simp only [combineErrors, List.foldl_cons] at ih ⊢
    rw [ih, ih ("" ++ "\n" ++ m)]
    simp [String.append_assoc]

/-- The accumulated error string is a newline, the first message, a newline,
the second message, and so on. -/
lemma combineErrors_eq (msgs : List String) (h : msgs ≠ []) :
    combineErrors msgs = "\n" ++ newlineSeparated msgs := by
  induction msgs with
  | nil => exact absurd rfl h
  | cons m ms ih =>
    simp only [combineErrors, List.foldl_cons]
    rw [combineErrors_aux]
    rcases ms with _ | ⟨m2, ms2⟩
    · simp [combineErrors, newlineSeparated]
    · rw [show combineErrors (m2 :: ms2) = "\n" ++ newlineSeparated (m2 :: ms2) from
        ih (by simp)]
      simp only [newlineSeparated]
      simp [String.append_assoc]

lemma newline_append_ne_empty (s : String) : "\n" ++ s ≠ "" := by
  intro h
  have hlen := congrArg String.length h
  rw [String.length_append] at hlen
  have h1 : ("\n" : String).length = 1 := rfl
  have h0 : ("" : String).length = 0 := rfl
  omega

/-- Every value published into `ReadBytes` during the loop is at least the
incoming `read` counter. -/
lemma publishedReads_lb :
    ∀ (es : List ChunkEvent) (read : Nat), ∀ v ∈ publishedReads es read, read ≤ v := by
  intro es
  induction es with
  | nil => intro read v hv; simp [publishedReads] at hv
  | cons e es ih =>
    intro read v hv
    simp only [publishedReads] at hv
    split at hv
    · simp at hv
    · simp only [List.mem_cons] at hv
      rcases hv with rfl | hv
      · omega
      · split at hv
        · simp at hv
        · split at hv
          · simp at hv
          · split at hv
            · simp at hv
            · have := ih (read + e.line) v hv
              omega

/-- The sequence of values published into `ReadBytes` is monotone
non-decreasing. -/
lemma publishedReads_pairwise :
    ∀ (es : List ChunkEvent) (read : Nat),
      List.Pairwise (fun a b => a ≤ b) (publishedReads es read) := by
  intro es
  induction es with
  | nil => intro read; simp [publishedReads]
  | cons e es ih =>
    intro read
    simp only [publishedReads]
    split
    · simp
    · rw [List.pairwise_cons]
      constructor
      · intro b hb
        split at hb
        · simp at hb
        · split at hb
          · simp at hb
          · split at hb
            · simp at hb
            · have := publishedReads_lb es (read + e.line) b hb
              omega
      · split
        · simp
        · split
          · simp
          · split
            · simp
            · exact ih (read + e.line)

/-- The final `read` counter never exceeds the total length of all body
chunks delivered to the worker. -/
lemma runLoopRead_le :
    ∀ (es : List ChunkEvent) (read : Nat),
      (runLoopRead es read).1 ≤ read + (es.map ChunkEvent.line).sum := by
  intro es
  induction es with
  | nil => intro read; simp [runLoopRead]
  | cons e es ih =>
    intro read
    simp only [runLoopRead, List.map_cons, List.sum_cons]
    split
    · dsimp only
      omega
    · split
      · dsimp only
        omega
      · split
        · dsimp only
          omega
        · split
          · dsimp only
            omega
          · have := ih (read + e.line)
            omega

/-- Updating slot `jobID` leaves every other slot untouched. -/
lemma setReadBytes_other :
    ∀ (stats : List Stat) (jobID : Nat) (v : Int) (j : Nat), j ≠ jobID →
      (setReadBytes stats jobID v).get? j = stats.get? j := by
  intro stats
  induction stats with
  | nil => intro jobID v j _; simp [setReadBytes]
  | cons s rest ih =>
    intro jobID v j hj
    cases jobID with
    | zero =>
      cases j with
      | zero => exact absurd rfl hj
      | succ j2 => simp [setReadBytes]
    | succ k =>
      cases j with
      | zero => simp [setReadBytes]
      | succ j2 => simpa [setReadBytes] using ih k v j2 (by omega)

/-! ### Claim theorems -/

/-- C1: For every `contentLength ≥ 0` and `jobCount ≥ 1`, the range plan
computed inside `FetchFile` (`chunkSize = contentLength / jobCount`
truncating, worker `i` gets `[i*chunkSize, (i+1)*chunkSize)` with the last
worker's end increased by `contentLength % jobCount`) produces exactly
`jobCount` ranges that are contiguous, non-overlapping, and whose total
length equals `contentLength`: they exactly tile `[0, contentLength)`. -/
theorem fetchFile_plan_tiles (L J : Int) (hL : 0 ≤ L) (hJ : 1 ≤ J) :
    (planRanges L J).length = J.toNat
    ∧ (∀ k (hk : k < (planRanges L J).length),
        (planRanges L J).get ⟨k, hk⟩ = (planMin L J k, planMax L J k))
    ∧ planMin L J 0 = 0
    ∧ planMax L J (J.toNat - 1) = L
    ∧ (∀ k, k + 1 < J.toNat → planMax L J k = planMin L J (k + 1))
    ∧ (∀ k, k < J.toNat → planMin L J k ≤ planMax L J k)
    ∧ (∀ k l, k < l → l < J.toNat → planMax L J k ≤ planMin L J l)
    ∧ ((planRanges L J).map (fun r => r.2 - r.1)).sum = L := by
  have hE : effectiveJobs J = J := effectiveJobs_of_pos hJ
  refine ⟨?_, planRanges_get L J, planMin_zero L J, ?_, ?_, ?_, ?_, ?_⟩
  · rw [planRanges_length, hE]
  · have h := planMax_last L J
    rwa [hE] at h
  · intro k hk
    exact planMax_eq_planMin_succ (by rw [hE]; exact hk)
  · intro k _
    exact planMin_le_planMax hL k
  · intro k l hkl hl
    exact planMax_le_planMin hL hkl (by rw [hE]; exact hl)
  · rw [planRanges, List.map_map]
    have h := plan_lengths_sum L J
    simpa [Function.comp] using h

theorem fetchFile_plan_tiles_witness :
    ((planRanges 7 3).map (fun r => r.2 - r.1)).sum = 7 :=
  (fetchFile_plan_tiles 7 3 (by decide) (by decide)).2.2.2.2.2.2.2

/-- C2: During one fetch, no two distinct workers ever issue positioned
writes to overlapping byte spans of the shared output file: provided each
worker's response body fits inside its planned range (the server honours
the `Range` header), every write of worker `i` is disjoint from every
write of worker `j` for `i ≠ j`. -/
theorem fetchFile_writes_disjoint (L J : Int) (hL : 0 ≤ L) (hJ : 1 ≤ J)
    (i j : Nat) (hi : i < J.toNat) (hj : j < J.toNat) (hij : i ≠ j)
    (ci cj : List Nat)
    (hci : (ci.sum : Int) ≤ planMax L J i - planMin L J i)
    (hcj : (cj.sum : Int) ≤ planMax L J j - planMin L J j)
    (w1 : Int × Nat) (hw1 : w1 ∈ workerWrites (planMin L J i) ci 0)
    (w2 : Int × Nat) (hw2 : w2 ∈ workerWrites (planMin L J j) cj 0) :
    w1.1 + (w1.2 : Int) ≤ w2.1 ∨ w2.1 + (w2.2 : Int) ≤ w1.1 := by
  have hE : effectiveJobs J = J := effectiveJobs_of_pos hJ
  have hb1 := workerWrites_bounds (planMin L J i) ci 0 w1 hw1
  have hb2 := workerWrites_bounds (planMin L J j) cj 0 w2 hw2
  push_cast at hb1 hb2 hci hcj
  rcases hij.lt_or_lt with hlt | hlt
  · left
    have hno := planMax_le_planMin hL hlt (by rw [hE]; exact hj)
    linarith [hb1.2, hb2.1]
  · right
    have hno := planMax_le_planMin hL hlt (by rw [hE]; exact hi)
    linarith [hb2.2, hb1.1]

theorem fetchFile_writes_disjoint_witness :
    ((0, 3) : Int × Nat).1 + ((((0, 3) : Int × Nat).2 : Nat) : Int) ≤ ((5, 5) : Int × Nat).1
      ∨ ((5, 5) : Int × Nat).1 + ((((5, 5) : Int × Nat).2 : Nat) : Int) ≤ ((0, 3) : Int × Nat).1 :=
  fetchFile_writes_disjoint 10 2 (by decide) (by decide) 0 1 (by decide) (by decide)
    (by decide) [3, 2] [5] (by decide) (by decide) (0, 3) (by decide) (5, 5) (by decide)

/-- C3 counterexample: not every worker failure is reported on `errChan`.
A short write (5 bytes intended, 3 written: braid.go, lines 226-229) makes
the worker terminate early with nothing sent, and so does a non-EOF read
error (lines 211-212); the claim that every failure contributes to the
aggregated error is therefore false. -/
theorem fetchFile_short_write_unreported :
    isEarlyFailure (runWorker (FetchEvent.body [⟨5, ReadErr.eof, 3, none⟩])) = true
    ∧ reportsError (runWorker (FetchEvent.body [⟨5, ReadErr.eof, 3, none⟩])) = false
    ∧ isEarlyFailure (runWorker (FetchEvent.body [⟨5, ReadErr.other, 0, none⟩])) = true
    ∧ reportsError (runWorker (FetchEvent.body [⟨5, ReadErr.other, 0, none⟩])) = false := by
  decide

/-- C3 amended: GET-request construction failures, transport failures and
`WriteAt` errors are sent to the coordinator's error channel before the
worker terminates early; but a short write (bytes written ≠ bytes
intended) and a non-EOF body-read error terminate the worker early
*without* sending anything (the short write is only logged), so those
failures do not contribute to the aggregated error. -/
theorem fetchFile_worker_error_reporting :
    (∀ msg, runWorker (FetchEvent.reqError msg) = WorkerOutcome.sentError msg)
    ∧ (∀ msg, runWorker (FetchEvent.doError msg) = WorkerOutcome.sentError msg)
    ∧ (∀ e es msg, e.rerr ≠ ReadErr.other → e.werr = some msg →
        runLoop (e :: es) = WorkerOutcome.sentError msg)
    ∧ (∀ e es, e.rerr = ReadErr.other → runLoop (e :: es) = WorkerOutcome.silentStop)
    ∧ (∀ e es, e.rerr ≠ ReadErr.other → e.werr = none → e.wcount ≠ e.line →
        runLoop (e :: es) = WorkerOutcome.silentStop) := by
  refine ⟨fun msg => rfl, fun msg => rfl, ?_, ?_, ?_⟩
  · intro e es msg hr hw
    simp [runLoop, runLoopRead, hr, hw]
  · intro e es hr
    simp [runLoop, runLoopRead, hr]
  · intro e es hr hw hc
    simp [runLoop, runLoopRead, hr, hw, hc]

theorem fetchFile_worker_error_reporting_witness :
    runWorker (FetchEvent.reqError "req failed") = WorkerOutcome.sentError "req failed"
    ∧ runLoop [⟨4, ReadErr.ok, 4, some "disk full"⟩] = WorkerOutcome.sentError "disk full" :=
  ⟨fetchFile_worker_error_reporting.1 "req failed",
   fetchFile_worker_error_reporting.2.2.1 ⟨4, ReadErr.ok, 4, some "disk full"⟩ [] "disk full"
     (by decide) rfl⟩

/-- C4: a HEAD response with no `Content-Length` header does **not**
produce an error return: `headers["Content-Length"][0]` indexes the nil
slice and crashes the program (index out of range), while a present but
unparseable value is the error-return path the claim describes.  This
evaluates the code of braid.go lines 123-127 at the failing input. -/
theorem fetchFile_missing_content_length_crashes :
    parseContentLength [] = HeadOutcome.crash
    ∧ parseContentLength [("Content-Type", ["text/html"])] = HeadOutcome.crash
    ∧ parseContentLength [("Content-Length", ["123"])] = HeadOutcome.ok 123
    ∧ parseContentLength [("Content-Length", ["abc"])] = HeadOutcome.atoiError := by
  decide

/-- C5 counterexample: the combined error message is not the plain
newline-separated concatenation of the reported messages: each message is
*prefixed* by a newline (braid.go, line 162), so for arrival order
`["a", "b"]` the message is `"\na\nb"`, not `"a\nb"`. -/
theorem fetchFile_combined_error_leading_newline :
    fetchResult ["a", "b"] = some "\na\nb"
    ∧ newlineSeparated ["a", "b"] = "a\nb"
    ∧ fetchResult ["a", "b"] ≠ some (newlineSeparated ["a", "b"]) := by
  decide

/-- C5 amended: when at least one worker reported an error, `FetchFile`
returns a single non-nil combined error whose message is a newline
followed by the newline-separated concatenation of all reported messages
in arrival order (equivalently, each message prefixed by a newline);
with no reported error it returns a nil error. -/
theorem fetchFile_combined_error (msgs : List String) (h : msgs ≠ []) :
    fetchResult msgs = some ("\n" ++ newlineSeparated msgs)
    ∧ fetchResult [] = none := by
  constructor
  · unfold fetchResult
    rw [combineErrors_eq msgs h, if_neg (newline_append_ne_empty _)]
  · simp [fetchResult, combineErrors]

theorem fetchFile_combined_error_witness :
    fetchResult ["x", "y"] = some ("\n" ++ newlineSeparated ["x", "y"])
    ∧ fetchResult [] = none :=
  fetchFile_combined_error ["x", "y"] (by decide)

/-- C6: for every planned range with exclusive end `(min, max)`, the
worker's GET request carries `Range: bytes=min-(max-1)` — the public
exclusive end is converted to an inclusive wire end by subtracting exactly
one, and the integers of the inclusive wire interval `[min, max-1]` are
exactly those of the half-open public range `[min, max)`. -/
theorem fetchFile_range_header_conversion (L J : Int) (i : Nat) :
    buildRangeHeader (planMin L J i) (planMax L J i)
      = "bytes=" ++ goItoa (planMin L J i) ++ "-" ++ goItoa (planMax L J i - 1)
    ∧ ∀ b : Int, (planMin L J i ≤ b ∧ b ≤ planMax L J i - 1)
        ↔ (planMin L J i ≤ b ∧ b < planMax L J i) :=
  ⟨rfl, fun b => and_congr_right fun _ => Int.le_sub_one_iff⟩

/-- C7: for every `jobCount ≤ 0` configured via `SetJobs`, the effective
job count used by `FetchFile` is `1`: the plan has exactly one range and
it covers all of `[0, contentLength)` (no division by zero, no zero
workers). -/
theorem fetchFile_jobs_clamped (L J : Int) (hJ : J ≤ 0) :
    effectiveJobs J = 1
    ∧ (planRanges L J).length = 1
    ∧ planMin L J 0 = 0
    ∧ planMax L J 0 = L := by
  have h1 : effectiveJobs J = 1 := by
    unfold effectiveJobs
    rw [if_pos hJ]
  refine ⟨h1, ?_, planMin_zero L J, ?_⟩
  · rw [planRanges_length, h1]
    rfl
  · have h := planMax_last L J
    rw [h1] at h
    simpa using h

theorem fetchFile_jobs_clamped_witness :
    effectiveJobs (-3) = 1
    ∧ (planRanges 9 (-3)).length = 1
    ∧ planMin 9 (-3) 0 = 0
    ∧ planMax 9 (-3) 0 = 9 :=
  fetchFile_jobs_clamped 9 (-3) (by decide)

/-- C8: `Stats()` always returns the component-wise sum over all worker
slots; on the empty slot list (before any fetch) it returns the zero
`Stat`, and after a fully successful fetch of a resource of size `S`
(each worker's final `ReadBytes` is the total length of its body, which
equals its range length) it returns `TotalBytes = S` and
`ReadBytes = S`. -/
theorem request_stats_sums (L J : Int) (hL : 0 ≤ L) (hJ : 1 ≤ J)
    (chunks : Nat → List Nat)
    (hc : ∀ i, i < (effectiveJobs J).toNat →
      (((chunks i).sum : Nat) : Int) = planMax L J i - planMin L J i) :
    (∀ sts : List Stat,
      statsSnapshot sts = ⟨(sts.map Stat.TotalBytes).sum, (sts.map Stat.ReadBytes).sum⟩)
    ∧ statsSnapshot [] = ⟨0, 0⟩
    ∧ statsSnapshot ((List.range (effectiveJobs J).toNat).map
        (fun i => ⟨planMax L J i - planMin L J i, (((chunks i).sum : Nat) : Int)⟩))
      = ⟨L, L⟩ := by
  refine ⟨statsSnapshot_eq_sums, rfl, ?_⟩
  have h2 : (List.range (effectiveJobs J).toNat).map
      (fun i => (((chunks i).sum : Nat) : Int))
      = (List.range (effectiveJobs J).toNat).map
        (fun i => planMax L J i - planMin L J i) := by
    apply List.map_congr_left
    intro a ha
    exact hc a (List.mem_range.mp ha)
  rw [statsSnapshot_eq_sums]
  simp only [List.map_map]
  have hcT : Stat.TotalBytes ∘
      (fun i => (⟨planMax L J i - planMin L J i, (((chunks i).sum : Nat) : Int)⟩ : Stat))
      = fun i => planMax L J i - planMin L J i := rfl
  have hcR : Stat.ReadBytes ∘
      (fun i => (⟨planMax L J i - planMin L J i, (((chunks i).sum : Nat) : Int)⟩ : Stat))
      = fun i => (((chunks i).sum : Nat) : Int) := rfl
  rw [hcT, hcR, h2, plan_lengths_sum]

theorem request_stats_sums_witness :
    statsSnapshot ((List.range (effectiveJobs 2).toNat).map
        (fun i => ⟨planMax 4 2 i - planMin 4 2 i, ((([2] : List Nat).sum : Nat) : Int)⟩))
      = ⟨4, 4⟩ :=
  (request_stats_sums 4 2 (by decide) (by decide) (fun _ => [2])
    (by
      intro i hi
      have hi2 : i < 2 := by simpa [effectiveJobs] using hi
      interval_cases i <;> decide)).2.2

/-- C9: the values a worker publishes into its `ReadBytes` slot are
monotonically non-decreasing over its execution; the update touches only
the owning worker's slot; and when the worker finishes without error its
final `ReadBytes` satisfies `0 ≤ ReadBytes ≤ TotalBytes`, provided its
body is no longer than its assigned range (the server honours the `Range`
header). -/
theorem worker_stat_invariants (es : List ChunkEvent) (total : Int)
    (hbody : (((es.map ChunkEvent.line).sum : Nat) : Int) ≤ total) :
    List.Pairwise (fun a b => a ≤ b) (publishedReads es 0)
    ∧ ((runLoopRead es 0).2 = WorkerOutcome.success →
        0 ≤ (((runLoopRead es 0).1 : Nat) : Int)
          ∧ (((runLoopRead es 0).1 : Nat) : Int) ≤ total)
    ∧ (∀ stats jobID v j, j ≠ jobID →
        (setReadBytes stats jobID v).get? j = stats.get? j) := by
  refine ⟨publishedReads_pairwise es 0, ?_,
    fun stats jobID v j hj => setReadBytes_other stats jobID v j hj⟩
  intro _
  refine ⟨Int.natCast_nonneg _, ?_⟩
  have h := runLoopRead_le es 0
  have h2 : (((runLoopRead es 0).1 : Nat) : Int)
      ≤ (((es.map ChunkEvent.line).sum : Nat) : Int) := by
    exact_mod_cast by omega
  linarith

theorem worker_stat_invariants_witness :
    List.Pairwise (fun a b => a ≤ b) (publishedReads [⟨3, ReadErr.eof, 3, none⟩] 0) :=
  (worker_stat_invariants [⟨3, ReadErr.eof, 3, none⟩] 3 (by decide)).1

/-- C10: for every chunk a worker processes, the published `ReadBytes`
advances by the chunk's length *before* the result of the positioned
write is checked: when the write errors or is short the worker's final
published counter already includes the failed chunk, even though the loop
then terminates without completing the range. -/
theorem worker_stat_advances_before_write_check (e : ChunkEvent) (es : List ChunkEvent)
    (read : Nat) (hr : e.rerr ≠ ReadErr.other) (hw : e.werr.isSome ∨ e.wcount ≠ e.line) :
    (runLoopRead (e :: es) read).1 = read + e.line
    ∧ (runLoopRead (e :: es) read).2 ≠ WorkerOutcome.success
    ∧ publishedReads (e :: es) read = [read + e.line] := by
  rcases hwe : e.werr with _ | msg
  · have hc : e.wcount ≠ e.line := by
      rcases hw with h | h
      · rw [hwe] at h
        simp at h
      · exact h
    refine ⟨?_, ?_, ?_⟩ <;> simp [runLoopRead, publishedReads, hr, hwe, hc]
  · refine ⟨?_, ?_, ?_⟩ <;> simp [runLoopRead, publishedReads, hr, hwe]

theorem worker_stat_advances_witness :
    (runLoopRead [⟨4, ReadErr.ok, 2, none⟩] 0).1 = 0 + 4
    ∧ (runLoopRead [⟨4, ReadErr.ok, 2, none⟩] 0).2 ≠ WorkerOutcome.success
    ∧ publishedReads [⟨4, ReadErr.ok, 2, none⟩] 0 = [0 + 4] :=
  worker_stat_advances_before_write_check ⟨4, ReadErr.ok, 2, none⟩ [] 0 (by decide)
    (Or.inr (by decide))

end Braid
